import Mathlib

/-
Verification of the binwalk Python-binding façade (src/lib.rs) together with a
model of the core scanning/extraction engine. The façade (`extract`,
`scan_file`, the result-map conversions) is embedded directly from src/lib.rs;
the core engine (`Binwalk::configure`, `Binwalk::scan`, the match resolver, the
extraction orchestrator and the result aggregator) is not part of the
repository sources and is modelled from the design specification.
-/

/-- Modelled from the spec: confidence tiers are a small closed enumeration
with a total order, Low < Medium < High (higher implies fewer false
positives). -/
inductive Confidence where
  | Low
  | Medium
  | High
deriving DecidableEq

/-- Modelled from the spec: the numeric rank of a confidence tier under the
declared total order (Low < Medium < High). -/
def Confidence.ord : Confidence → Nat
  | .Low => 0
  | .Medium => 1
  | .High => 2

/-- Modelled from the spec: the display string of a confidence tier. -/
def Confidence.display : Confidence → String
  | .Low => "Low"
  | .Medium => "Medium"
  | .High => "High"

/-- Modelled from the spec: outcome of an Extractor collaborator - success
flag, bytes consumed (if known), and the files it wrote (name and content). -/
structure ExtractionOutcome where
  success : Bool
  bytes_consumed : Option Nat
  written : List (String × List Nat)

/-- Modelled from the spec: an Extractor collaborator - a per-format function
from (buffer, offset, output directory) to an `ExtractionOutcome`. -/
structure ExtractorImpl where
  id : String
  run : List Nat → Nat → String → ExtractionOutcome

/-- Modelled from the spec: a signature rule - identifier, human-readable
name/description, byte pattern (literal bytes and wildcard positions),
declared default confidence tier, optional structural validator, optional
extractor. -/
structure SignatureRule where
  id : String
  name : String
  description : String
  pattern : List (Option Nat)
  confidence : Confidence
  validator : Option (List Nat → Nat → Option (Confidence × Option Nat))
  extractor : Option ExtractorImpl

/-- Modelled from the spec: a raw scanner hit - signature (by registry
declaration index), absolute byte offset, confidence tier, optional computed
payload size. -/
structure ScanMatch where
  declIdx : Nat
  offset : Nat
  confidence : Confidence
  size : Option Nat
deriving DecidableEq

/-- A finalized match of `AnalysisResults`: id, name, description, confidence
tier, offset and size (0 if the validator could not bound it). -/
structure AnalysisResult where
  id : String
  name : String
  description : String
  confidence : Confidence
  offset : Nat
  size : Nat
deriving DecidableEq

/-- Placeholder rule for out-of-range registry indices. -/
def dummyRule : SignatureRule :=
  ⟨"", "", "", [], .Low, none, none⟩

/-- The rule at a given declaration index of the registry. -/
def ruleAt (reg : List SignatureRule) (i : Nat) : SignatureRule :=
  reg.getD i dummyRule

/-- Modelled from the spec: does the literal/wildcard byte pattern occur in
the buffer starting at the given offset? A wildcard position (`none`) matches
any byte that exists. -/
def patternMatches : List (Option Nat) → List Nat → Nat → Bool
  | [], _, _ => true
  | p :: ps, buf, off =>
    (match buf[off]? with
     | none => false
     | some b =>
       match p with
       | none => true
       | some x => x == b) && patternMatches ps buf (off + 1)

/-- Modelled from the spec: turn a raw pattern hit into a `ScanMatch`. If the
signature declares a structural validator, it returns the confidence tier and
optional size, or rejects the hit (`none`); otherwise the rule's default
confidence tier is used and no size is computed. -/
def mkMatch (reg : List SignatureRule) (buf : List Nat) (i off : Nat) : Option ScanMatch :=
  match (ruleAt reg i).validator with
  | none => some ⟨i, off, (ruleAt reg i).confidence, none⟩
  | some v => (v buf off).map (fun r => ⟨i, off, r.1, r.2⟩)

/-- Modelled from the spec: all accepted hits of one signature over the
buffer - every start offset where the pattern matches, validated. -/
def sigHits (reg : List SignatureRule) (buf : List Nat) (i : Nat) : List ScanMatch :=
  (List.range buf.length).filterMap (fun off =>
    if patternMatches (ruleAt reg i).pattern buf off then mkMatch reg buf i off else none)

/-- Does a signature's id or name appear in a filter list? -/
def inList (l : List String) (id name : String) : Bool :=
  l.contains id || l.contains name

/-- Modelled from the spec: the resolver's include/exclude filter. A match is
kept when the include-list (if configured) mentions its signature's id or
name, and the exclude-list (if configured) does not; exclude wins on
conflict. -/
def keep (reg : List SignatureRule) (inc exc : Option (List String)) (m : ScanMatch) : Bool :=
  (match inc with
   | none => true
   | some l => inList l (ruleAt reg m.declIdx).id (ruleAt reg m.declIdx).name) &&
  !(match exc with
    | none => false
    | some l => inList l (ruleAt reg m.declIdx).id (ruleAt reg m.declIdx).name)

/-- Modelled from the spec: the canonical resolver order - ascending offset,
ties broken by higher confidence first, then by registry declaration order. -/
def keyLe (a b : ScanMatch) : Prop :=
  a.offset < b.offset ∨
    (a.offset = b.offset ∧
      (b.confidence.ord < a.confidence.ord ∨
        (a.confidence.ord = b.confidence.ord ∧ a.declIdx ≤ b.declIdx)))

instance : DecidableRel keyLe := fun a b => by
  unfold keyLe; infer_instance

theorem keyLe_total (a b : ScanMatch) : keyLe a b ∨ keyLe b a := by
  unfold keyLe; omega

theorem keyLe_trans {a b c : ScanMatch} (h₁ : keyLe a b) (h₂ : keyLe b c) : keyLe a c := by
  unfold keyLe at h₁ h₂ ⊢; omega

instance : IsTotal ScanMatch keyLe := ⟨keyLe_total⟩

instance : IsTrans ScanMatch keyLe := ⟨fun _ _ _ => keyLe_trans⟩

theorem keyLe_antisymm_fields {a b : ScanMatch} (h₁ : keyLe a b) (h₂ : keyLe b a) :
    a.offset = b.offset ∧ a.declIdx = b.declIdx := by
  unfold keyLe at h₁ h₂; omega

/-- Modelled from the spec: resolve the raw hits gathered in a given work
order - filter by include/exclude, then sort into the canonical order. -/
def rawScan (reg : List SignatureRule) (inc exc : Option (List String)) (buf : List Nat)
    (order : List Nat) : List ScanMatch :=
  List.insertionSort keyLe ((order.flatMap (sigHits reg buf)).filter (keep reg inc exc))

/-- Turn a resolved `ScanMatch` into a finalized `AnalysisResult`, carrying
over the rule's metadata. -/
def finalize (reg : List SignatureRule) (m : ScanMatch) : AnalysisResult :=
  ⟨(ruleAt reg m.declIdx).id, (ruleAt reg m.declIdx).name,
    (ruleAt reg m.declIdx).description, m.confidence, m.offset, m.size.getD 0⟩

@[simp] theorem finalize_offset (reg : List SignatureRule) (m : ScanMatch) :
    (finalize reg m).offset = m.offset := rfl

@[simp] theorem finalize_confidence (reg : List SignatureRule) (m : ScanMatch) :
    (finalize reg m).confidence = m.confidence := rfl

@[simp] theorem finalize_id (reg : List SignatureRule) (m : ScanMatch) :
    (finalize reg m).id = (ruleAt reg m.declIdx).id := rfl

@[simp] theorem finalize_name (reg : List SignatureRule) (m : ScanMatch) :
    (finalize reg m).name = (ruleAt reg m.declIdx).name := rfl

/-- Modelled from the spec: a scan whose signature checks were scheduled in
the given order (a parallel scan partitions signatures across workers); the
results are merged into the canonical order before being returned. -/
def parScan (reg : List SignatureRule) (inc exc : Option (List String)) (buf : List Nat)
    (order : List Nat) : List AnalysisResult :=
  (rawScan reg inc exc buf order).map (finalize reg)

/-- Modelled from the spec: the scanning engine - every registered signature
is searched over the buffer and the hits are resolved into the ordered
`AnalysisResults` sequence. -/
def scanBuffer (reg : List SignatureRule) (inc exc : Option (List String))
    (buf : List Nat) : List AnalysisResult :=
  parScan reg inc exc buf (List.range reg.length)

/-- Decimal digit characters, embedding the digits of Rust's integer
`to_string`. -/
def digitChar : Nat → Char
  | 0 => '0'
  | 1 => '1'
  | 2 => '2'
  | 3 => '3'
  | 4 => '4'
  | 5 => '5'
  | 6 => '6'
  | 7 => '7'
  | 8 => '8'
  | _ => '9'

/-- The decimal digits of a natural number, most significant first, prepended
to an accumulator. -/
def decChars (n : Nat) (acc : List Char) : List Char :=
  if n < 10 then digitChar n :: acc
  else decChars (n / 10) (digitChar (n % 10) :: acc)
termination_by n
decreasing_by exact Nat.div_lt_self (by omega) (by omega)

/-- The decimal string of a natural number: the embedding of Rust's
`to_string` on unsigned integers (src/lib.rs lines 100, 151, 152). -/
def decStr (n : Nat) : String :=
  ⟨decChars n []⟩

/-- `true`/`false`, the embedding of Rust's `bool::to_string`
(src/lib.rs line 102). -/
def boolStr (b : Bool) : String :=
  if b then "true" else "false"

/-- The error type of the core engine; carries a message
(src/lib.rs line 80 reads `e.message`). -/
structure BinwalkError where
  message : String

/-- Modelled from the spec: the configured session - target file path, output
root directory, include-list, exclude-list, full-search flag, and the loaded
signature registry. -/
structure Binwalk where
  base_target_file : String
  output_directory : String
  include_list : Option (List String)
  exclude_list : Option (List String)
  full_search : Bool
  registry : List SignatureRule

/-- Modelled from the spec: `Binwalk::configure` validates its inputs (target
file existence when a target is given) before producing a session usable for
scan/extract; no partial session is returned on failure. The file system is
modelled as a partial map from paths to byte contents. -/
def Binwalk.configure (reg : List SignatureRule) (fsys : String → Option (List Nat))
    (target output : Option String) (inc exc sigFilter : Option (List String))
    (full_search : Bool) : Except BinwalkError Binwalk :=
  let reg' := match sigFilter with
    | none => reg
    | some l => reg.filter (fun r => inList l r.id r.name)
  match target with
  | none => .ok ⟨"", output.getD ".", inc, exc, full_search, reg'⟩
  | some t =>
    if (fsys t).isSome then .ok ⟨t, output.getD ".", inc, exc, full_search, reg'⟩
    else .error ⟨"Target file does not exist"⟩

/-- Modelled from the spec: `Binwalk::new` - a session over the default
(externally loaded) registry with no filters and full search disabled. -/
def Binwalk.new (reg : List SignatureRule) : Binwalk :=
  ⟨"", ".", none, none, false, reg⟩

/-- Modelled from the spec: `Binwalk::scan` runs the scanning engine over a
buffer with the session's registry and include/exclude filters. -/
def Binwalk.scan (b : Binwalk) (data : List Nat) : List AnalysisResult :=
  scanBuffer b.registry b.include_list b.exclude_list data

/-- Modelled from the spec: one `ExtractionResult` - optional size (bytes
written, `none` if unknown), success flag, extractor identifier used, output
directory path (may be empty if extraction was skipped). Its stable key is
kept separately as the aggregator map key. -/
structure ExtractionResult where
  size : Option Nat
  success : Bool
  extractor : String
  output_directory : String
deriving DecidableEq

/-- Modelled from the spec: the `ExtractionResult` recorded when no extractor
is registered for a matched signature - success false, empty output
directory. -/
def noExtractorResult : ExtractionResult :=
  ⟨none, false, "", ""⟩

/-- Modelled from the spec: the stable textual aggregator key of a match -
source path, offset and signature combined, so repeated offsets in unrelated
files stay distinguishable. -/
def mkKey (src : String) (m : AnalysisResult) : String :=
  src ++ ":" ++ decStr m.offset ++ ":" ++ m.id

/-- Modelled from the spec: the deterministic, collision-safe output
subdirectory derived from the source file name and the match offset. -/
def derivedDir (outRoot src : String) (off : Nat) : String :=
  outRoot ++ "/" ++ src ++ "." ++ decStr off ++ ".extracted"

/-- Modelled from the spec: look up the Extractor collaborator registered for
a signature id, if any. -/
def lookupExtractor (reg : List SignatureRule) (id : String) : Option ExtractorImpl :=
  match reg.find? (fun r => r.id == id) with
  | none => none
  | some r => r.extractor

/-- Modelled from the spec: the extraction orchestrator. Each match of the
given `AnalysisResults` is processed in the resolved order: a match with no
registered extractor is recorded as a failed `ExtractionResult` (empty output
directory) and processing continues; otherwise the extractor runs against its
derived output directory and, on success, every freshly written file is
recursively re-scanned and re-extracted, subject to the depth bound `fuel`. -/
def runResults (fuel : Nat) (reg : List SignatureRule) (inc exc : Option (List String))
    (buf : List Nat) (src outRoot : String) (results : List AnalysisResult) :
    List (String × ExtractionResult) :=
  results.flatMap (fun m =>
    match lookupExtractor reg m.id with
    | none => [(mkKey src m, noExtractorResult)]
    | some ext =>
      let dir := derivedDir outRoot src m.offset
      let out := ext.run buf m.offset dir
      (mkKey src m, ⟨out.bytes_consumed, out.success, ext.id, dir⟩) ::
        (if out.success then
          match fuel with
          | 0 => []
          | fuel' + 1 =>
            out.written.flatMap (fun w =>
              runResults fuel' reg inc exc w.2 w.1 dir (scanBuffer reg inc exc w.2))
        else []))

/-- Modelled from the spec: the result aggregator's fold - insert entries one
by one, surfacing a colliding key as an internal-consistency error instead of
silently overwriting the earlier entry. -/
def aggAux (acc : List (String × ExtractionResult)) :
    List (String × ExtractionResult) → Except String (List (String × ExtractionResult))
  | [] => .ok acc
  | (k, v) :: rest =>
    if (acc.map Prod.fst).contains k then
      .error ("Aggregator key collision: " ++ k)
    else aggAux (acc ++ [(k, v)]) rest

/-- Modelled from the spec: merge all `ExtractionResult`s of a run (top-level
and recursive) into one mapping keyed by the stable key; a collision aborts
the run with a diagnostic. -/
def aggregate (entries : List (String × ExtractionResult)) :
    Except String (List (String × ExtractionResult)) :=
  aggAux [] entries

/-- Modelled from the spec: `Binwalk::extract` - drive the orchestrator over
the scan results of a buffer and aggregate every `ExtractionResult` produced
by the run and its recursive sub-runs. -/
def binwalkExtract (b : Binwalk) (fuel : Nat) (buf : List Nat) (path : String)
    (results : List AnalysisResult) : Except String (List (String × ExtractionResult)) :=
  aggregate (runResults fuel b.registry b.include_list b.exclude_list buf path
    b.output_directory results)

/-- The size field of a Python extraction result map: `"Unknown"` when the
byte count is unknown, otherwise its decimal string (src/lib.rs line 100,
`value.size.map_or("Unknown".to_string(), |s| s.to_string())`). -/
def sizeDisplay : Option Nat → String
  | none => "Unknown"
  | some s => decStr s

/-- The result map built for one `ExtractionResult` entry by the Python
`extract` façade (src/lib.rs lines 97-105). -/
def toResultMap (k : String) (v : ExtractionResult) : List (String × String) :=
  [("key", k), ("size", sizeDisplay v.size), ("success", boolStr v.success),
   ("extractor", v.extractor), ("output_directory", v.output_directory)]

/-- The Python-facing conversion of the aggregated extraction results: one
result map per `ExtractionResult` entry (src/lib.rs lines 96-106). -/
def pyConvert (entries : List (String × ExtractionResult)) : List (List (String × String)) :=
  entries.map (fun kv => toResultMap kv.1 kv.2)

/-- The `Binwalk::configure` call made by the Python `extract` façade
(src/lib.rs lines 73-80): target is the given file path, the signature
filter argument is `None`, and `full_search` defaults to `false` when
omitted (`full_search.unwrap_or(false)`). -/
def extractConfigure (reg : List SignatureRule) (fsys : String → Option (List Nat))
    (file_path : String) (output_path : Option String) (inc exc : Option (List String))
    (full_search : Option Bool) : Except BinwalkError Binwalk :=
  Binwalk.configure reg fsys (some file_path) output_path inc exc none
    (full_search.getD false)

/-- The Python-facing `extract` function (src/lib.rs lines 57-110): check that
the input file exists, configure a session, read the target file, scan it,
extract, and convert the aggregated extraction results to result maps. -/
def extract (reg : List SignatureRule) (fsys : String → Option (List Nat)) (fuel : Nat)
    (file_path : String) (output_path : Option String) (inc exc : Option (List String))
    (full_search : Option Bool) : Except String (List (List (String × String))) :=
  match fsys file_path with
  | none => .error "Input file does not exist"
  | some _ =>
    match extractConfigure reg fsys file_path output_path inc exc full_search with
    | .error e => .error e.message
    | .ok binwalker =>
      match fsys binwalker.base_target_file with
      | none => .error "Failed to read target file"
      | some file_data =>
        match binwalkExtract binwalker fuel file_data binwalker.base_target_file
            (binwalker.scan file_data) with
        | .error e => .error e
        | .ok extraction_results => .ok (pyConvert extraction_results)

/-- The result map built for one `AnalysisResult` by the Python `scan_file`
façade (src/lib.rs lines 145-153). -/
def toScanMap (r : AnalysisResult) : List (String × String) :=
  [("description", r.description), ("id", r.id), ("name", r.name),
   ("confidence", r.confidence.display), ("offset", decStr r.offset),
   ("size", decStr r.size)]

/-- The Python-facing `scan_file` function (src/lib.rs lines 132-156): read
the file, scan it with a fresh default session, and convert each result in
sequence order. -/
def scan_file (reg : List SignatureRule) (fsys : String → Option (List Nat))
    (file_path : String) : Except String (List (List (String × String))) :=
  match fsys file_path with
  | none => .error "No such file or directory"
  | some file_data => .ok (((Binwalk.new reg).scan file_data).map toScanMap)

theorem keyLe_refl (a : ScanMatch) : keyLe a a := by
  unfold keyLe; omega

theorem mkMatch_shape {reg : List SignatureRule} {buf : List Nat} {i off : Nat}
    {m : ScanMatch} (h : mkMatch reg buf i off = some m) :
    m.declIdx = i ∧ m.offset = off := by
  unfold mkMatch at h
  cases hv : (ruleAt reg i).validator with
  | none =>
    rw [hv] at h
    simp only [Option.some.injEq] at h
    subst h
    exact ⟨rfl, rfl⟩
  | some v =>
    rw [hv] at h
    obtain ⟨r, _, hm⟩ := Option.map_eq_some'.mp h
    subst hm
    exact ⟨rfl, rfl⟩

theorem sigHits_mem {reg : List SignatureRule} {buf : List Nat} {i : Nat} {m : ScanMatch}
    (h : m ∈ sigHits reg buf i) :
    m.declIdx = i ∧ mkMatch reg buf i m.offset = some m := by
  unfold sigHits at h
  obtain ⟨off, _, h2⟩ := List.mem_filterMap.mp h
  split at h2
  · have hs := mkMatch_shape h2
    refine ⟨hs.1, ?_⟩
    rw [hs.2]
    exact h2
  · exact absurd h2 (by simp)

theorem hits_inj {reg : List SignatureRule} {buf : List Nat} {order : List Nat}
    {a b : ScanMatch} (ha : a ∈ order.flatMap (sigHits reg buf))
    (hb : b ∈ order.flatMap (sigHits reg buf))
    (hd : a.declIdx = b.declIdx) (ho : a.offset = b.offset) : a = b := by
  obtain ⟨i, _, hai⟩ := List.mem_flatMap.mp ha
  obtain ⟨j, _, hbj⟩ := List.mem_flatMap.mp hb
  obtain ⟨hai1, hai2⟩ := sigHits_mem hai
  obtain ⟨hbj1, hbj2⟩ := sigHits_mem hbj
  subst hai1 hbj1
  rw [hd, ho] at hai2
  rw [hai2] at hbj2
  exact (Option.some.injEq _ _ ▸ hbj2)

theorem sorted_perm_eq : ∀ (l₁ l₂ : List ScanMatch), l₁.Perm l₂ →
    l₁.Sorted keyLe → l₂.Sorted keyLe →
    (∀ a ∈ l₁, ∀ b ∈ l₁, keyLe a b → keyLe b a → a = b) → l₁ = l₂ := by
  intro l₁
  induction l₁ with
  | nil =>
    intro l₂ hp _ _ _
    exact (hp.symm.eq_nil).symm
  | cons a t ih =>
    intro l₂ hp hs₁ hs₂ hanti
    cases l₂ with
    | nil => exact absurd hp.eq_nil (by simp)
    | cons b u =>
      have hb₁ : b ∈ a :: t := hp.symm.subset (List.mem_cons_self b u)
      have ha₂ : a ∈ b :: u := hp.subset (List.mem_cons_self a t)
      have hab : keyLe a b := by
        rcases List.mem_cons.mp hb₁ with h | h
        · rw [h]; exact keyLe_refl a
        · exact (List.pairwise_cons.mp hs₁).1 b h
      have hba : keyLe b a := by
        rcases List.mem_cons.mp ha₂ with h | h
        · rw [h]; exact keyLe_refl b
        · exact (List.pairwise_cons.mp hs₂).1 a h
      have heq : a = b := hanti a (List.mem_cons_self a t) b hb₁ hab hba
      subst heq
      have htu : t.Perm u := hp.cons_inv
      have ht : t = u := by
        apply ih u htu (List.Pairwise.of_cons hs₁) (List.Pairwise.of_cons hs₂)
        intro x hx y hy
        exact hanti x (List.mem_cons_of_mem a hx) y (List.mem_cons_of_mem a hy)
      rw [ht]

theorem insertionSort_eq_of_perm_inj {l₁ l₂ : List ScanMatch} (hp : l₁.Perm l₂)
    (hinj : ∀ a ∈ l₁, ∀ b ∈ l₁, a.declIdx = b.declIdx → a.offset = b.offset → a = b) :
    List.insertionSort keyLe l₁ = List.insertionSort keyLe l₂ := by
  apply sorted_perm_eq
  · exact (List.perm_insertionSort keyLe l₁).trans
      (hp.trans (List.perm_insertionSort keyLe l₂).symm)
  · exact List.sorted_insertionSort keyLe l₁
  · exact List.sorted_insertionSort keyLe l₂
  · intro x hx y hy h₁ h₂
    have hx' : x ∈ l₁ := (List.mem_insertionSort keyLe).mp hx
    have hy' : y ∈ l₁ := (List.mem_insertionSort keyLe).mp hy
    have hf := keyLe_antisymm_fields h₁ h₂
    exact hinj x hx' y hy' hf.2 hf.1

/-- Claim C2: for a fixed buffer and fixed registry/configuration, the
`AnalysisResults` sequence produced by a scan is independent of the internal
work scheduling - any two schedules that each cover the registered signatures
produce identical sequences - and, as a consequence, two `scan_file` calls on
the same unchanged file return identical result lists. -/
theorem scan_deterministic (reg : List SignatureRule) (inc exc : Option (List String))
    (buf : List Nat) (order₁ order₂ : List Nat)
    (h₁ : order₁.Perm (List.range reg.length)) (h₂ : order₂.Perm (List.range reg.length)) :
    parScan reg inc exc buf order₁ = parScan reg inc exc buf order₂ ∧
    (∀ fsys p, scan_file reg fsys p = scan_file reg fsys p) := by
  refine ⟨?_, fun _ _ => rfl⟩
  unfold parScan rawScan
  have hsort : List.insertionSort keyLe
      ((order₁.flatMap (sigHits reg buf)).filter (keep reg inc exc)) =
      List.insertionSort keyLe
      ((order₂.flatMap (sigHits reg buf)).filter (keep reg inc exc)) := by
    apply insertionSort_eq_of_perm_inj
    · exact ((h₁.trans h₂.symm).flatMap_right (sigHits reg buf)).filter (keep reg inc exc)
    · intro a ha b hb
      exact hits_inj (List.mem_filter.mp ha).1 (List.mem_filter.mp hb).1
  rw [hsort]

/-- Witness for C2, at a two-rule registry with two distinct schedules. -/
def ruleA : SignatureRule :=
  ⟨"a", "ruleA", "first rule", [some 1], .Medium, none, none⟩

/-- A second concrete rule used by the claim witnesses. -/
def ruleB : SignatureRule :=
  ⟨"b", "ruleB", "second rule", [some 2], .High, none, none⟩

theorem scan_deterministic_witness :
    parScan [ruleA, ruleB] none none [1, 2] [1, 0] =
      parScan [ruleA, ruleB] none none [1, 2] [0, 1] :=
  (scan_deterministic [ruleA, ruleB] none none [1, 2] [1, 0] [0, 1]
    (by decide) (by decide)).1

/-- Claim C3: in the `AnalysisResults` sequence returned by a scan, every
pair of adjacent entries is ordered by ascending offset, and at equal offsets
the earlier entry's confidence tier is at least the later one's. -/
theorem scan_ordering (reg : List SignatureRule) (inc exc : Option (List String))
    (buf : List Nat) :
    List.Chain' (fun a b : AnalysisResult => a.offset ≤ b.offset ∧
      (a.offset = b.offset → b.confidence.ord ≤ a.confidence.ord))
      (scanBuffer reg inc exc buf) := by
  unfold scanBuffer parScan
  apply List.Pairwise.chain'
  rw [List.pairwise_map]
  have hs : List.Pairwise keyLe (rawScan reg inc exc buf (List.range reg.length)) :=
    List.sorted_insertionSort keyLe _
  apply hs.imp
  intro a b hab
  simp only [finalize_offset, finalize_confidence]
  unfold keyLe at hab
  omega

/-- Claim C4: scanning the empty buffer yields the empty `AnalysisResults`
sequence and no error, and `scan_file` on an existing empty file returns an
empty result list rather than failing. -/
theorem scan_empty_buffer (reg : List SignatureRule) (inc exc : Option (List String))
    (fsys : String → Option (List Nat)) (path : String) :
    scanBuffer reg inc exc [] = [] ∧
    (fsys path = some [] → scan_file reg fsys path = .ok []) := by
  have h0 : ∀ incl excl, scanBuffer reg incl excl [] = [] := by
    intro incl excl
    unfold scanBuffer parScan rawScan
    have hflat : ∀ (l : List Nat), l.flatMap (sigHits reg []) = [] := by
      intro l
      induction l with
      | nil => rfl
      | cons x xs ih =>
        rw [List.flatMap_cons, ih]
        rfl
    rw [hflat]
    rfl
  refine ⟨h0 inc exc, fun hfs => ?_⟩
  unfold scan_file
  rw [hfs]
  show Except.ok (((Binwalk.new reg).scan []).map toScanMap) = Except.ok []
  rw [show (Binwalk.new reg).scan [] = scanBuffer reg none none [] from rfl, h0 none none]
  rfl

theorem scan_empty_buffer_witness :
    scan_file [ruleA] (fun _ => some []) "f" = .ok [] :=
  (scan_empty_buffer [ruleA] none none (fun _ => some []) "f").2 rfl

/-- Claim C5: every entry of the final results respects the configured
filters - its signature id/name is never in the exclude-list, and when an
include-list is configured its id or name is in it; in particular a signature
in both lists is dropped, so exclude wins. -/
theorem scan_filter_correct (reg : List SignatureRule) (inc exc : Option (List String))
    (buf : List Nat) (m : AnalysisResult) (hm : m ∈ scanBuffer reg inc exc buf) :
    (∀ l, exc = some l → inList l m.id m.name = false) ∧
    (∀ l, inc = some l → inList l m.id m.name = true) := by
  unfold scanBuffer parScan at hm
  obtain ⟨sm, hsm, hfin⟩ := List.mem_map.mp hm
  unfold rawScan at hsm
  rw [List.mem_insertionSort] at hsm
  have hkeep := (List.mem_filter.mp hsm).2
  unfold keep at hkeep
  rw [Bool.and_eq_true] at hkeep
  obtain ⟨hinc, hexc⟩ := hkeep
  subst hfin
  constructor
  · intro l hl
    subst hl
    simp only [Bool.not_eq_true'] at hexc
    simpa using hexc
  · intro l hl
    subst hl
    simpa using hinc

theorem scan_filter_correct_witness :
    inList ["z"] "a" "ruleA" = false ∧ inList ["a"] "a" "ruleA" = true :=
  ⟨(scan_filter_correct [ruleA] (some ["a"]) (some ["z"]) [1]
      ⟨"a", "ruleA", "first rule", .Medium, 0, 0⟩ (by decide)).1 ["z"] rfl,
   (scan_filter_correct [ruleA] (some ["a"]) (some ["z"]) [1]
      ⟨"a", "ruleA", "first rule", .Medium, 0, 0⟩ (by decide)).2 ["a"] rfl⟩

theorem decChars_cons (n : Nat) : ∀ acc, ∃ d t, decChars n acc = digitChar d :: t ∧ d < 10 := by
  induction n using Nat.strong_induction_on with
  | _ n ih =>
    intro acc
    rw [decChars]
    split
    · next h => exact ⟨n, acc, rfl, h⟩
    · next h => exact ih (n / 10) (Nat.div_lt_self (by omega) (by omega)) _

theorem decStr_ne_unknown (n : Nat) : decStr n ≠ "Unknown" := by
  obtain ⟨d, t, h, hd⟩ := decChars_cons n []
  unfold decStr
  rw [h]
  intro hcontra
  have hdata : digitChar d :: t = ['U', 'n', 'k', 'n', 'o', 'w', 'n'] :=
    congrArg String.data hcontra
  have hhead : digitChar d = 'U' := (List.cons_eq_cons.mp hdata).1
  interval_cases d <;> exact absurd hhead (by decide)

/-- Claim C1: calling the Python-facing `extract` with a `file_path` that does
not name an existing file fails immediately with the configuration error
`Input file does not exist`; no session is configured and no scan or
extraction contributes to the outcome. -/
theorem extract_missing_file (reg : List SignatureRule)
    (fsys : String → Option (List Nat)) (fuel : Nat) (file_path : String)
    (output_path : Option String) (inc exc : Option (List String))
    (full_search : Option Bool) (h : fsys file_path = none) :
    extract reg fsys fuel file_path output_path inc exc full_search =
      .error "Input file does not exist" := by
  unfold extract
  rw [h]

theorem extract_missing_file_witness :
    extract [ruleA] (fun _ => none) 1 "missing" none none none none =
      .error "Input file does not exist" :=
  extract_missing_file [ruleA] (fun _ => none) 1 "missing" none none none none rfl

/-- Claim C10: when the `full_search` argument of the Python `extract` façade
is omitted or `None`, the session it configures has full-search mode
disabled. -/
theorem full_search_default (reg : List SignatureRule)
    (fsys : String → Option (List Nat)) (file_path : String)
    (output_path : Option String) (inc exc : Option (List String)) (s : Binwalk)
    (h : extractConfigure reg fsys file_path output_path inc exc none = .ok s) :
    s.full_search = false := by
  have h' : (if (fsys file_path).isSome = true then
      Except.ok (⟨file_path, output_path.getD ".", inc, exc, false, reg⟩ : Binwalk)
    else Except.error (BinwalkError.mk "Target file does not exist")) = Except.ok s := h
  by_cases hc : (fsys file_path).isSome = true
  · rw [if_pos hc] at h'
    injection h' with hh
    subst hh
    rfl
  · rw [if_neg hc] at h'
    exact absurd h' (by simp)

theorem full_search_default_witness :
    (Binwalk.mk "f" "." none none false [] : Binwalk).full_search = false :=
  full_search_default [] (fun _ => some []) "f" none none none
    ⟨"f", ".", none, none, false, []⟩ rfl

/-- Claim C8: in every result map returned by the Python `extract` façade, the
`size` field is the string `Unknown` exactly when the `ExtractionResult`'s
optional size is `None`, and otherwise is the decimal string of the byte
count. -/
theorem extract_size_field (k : String) (v : ExtractionResult) :
    (toResultMap k v).lookup "size" = some (sizeDisplay v.size) ∧
    (sizeDisplay v.size = "Unknown" ↔ v.size = none) ∧
    (∀ n, sizeDisplay (some n) = decStr n) := by
  refine ⟨rfl, ?_, fun n => rfl⟩
  cases hv : v.size with
  | none => simp [sizeDisplay]
  | some n =>
    simp only [sizeDisplay, Option.some_ne_none, iff_false]
    exact decStr_ne_unknown n

/-- Claim C9: each result map returned by `scan_file` carries exactly the
finalized-match fields - description, id, name, confidence as a display
string, offset and size as decimal strings - one map per match in sequence
order. -/
theorem scan_file_result_fields (reg : List SignatureRule)
    (fsys : String → Option (List Nat)) (path : String) (file_data : List Nat)
    (h : fsys path = some file_data) :
    scan_file reg fsys path = .ok ((scanBuffer reg none none file_data).map toScanMap) ∧
    (∀ r : AnalysisResult,
      (toScanMap r).map Prod.fst =
        ["description", "id", "name", "confidence", "offset", "size"] ∧
      (toScanMap r).lookup "description" = some r.description ∧
      (toScanMap r).lookup "id" = some r.id ∧
      (toScanMap r).lookup "name" = some r.name ∧
      (toScanMap r).lookup "confidence" = some r.confidence.display ∧
      (toScanMap r).lookup "offset" = some (decStr r.offset) ∧
      (toScanMap r).lookup "size" = some (decStr r.size)) := by
  constructor
  · unfold scan_file
    rw [h]
    rfl
  · intro r
    exact ⟨rfl, rfl, rfl, rfl, rfl, rfl, rfl⟩

theorem scan_file_result_fields_witness :
    scan_file [ruleA] (fun _ => some [1]) "f" =
      .ok ((scanBuffer [ruleA] none none [1]).map toScanMap) ∧
    (toScanMap ⟨"i", "n", "d", .High, 3, 4⟩).map Prod.fst =
      ["description", "id", "name", "confidence", "offset", "size"] :=
  ⟨(scan_file_result_fields [ruleA] (fun _ => some [1]) "f" [1] rfl).1,
   ((scan_file_result_fields [ruleA] (fun _ => some [1]) "f" [1] rfl).2
     ⟨"i", "n", "d", .High, 3, 4⟩).1⟩

theorem length_le_flatMap {α β : Type} (l : List α) (f : α → List β)
    (h : ∀ a ∈ l, 1 ≤ (f a).length) : l.length ≤ (l.flatMap f).length := by
  induction l with
  | nil => simp
  | cons x xs ih =>
    rw [List.flatMap_cons, List.length_append, List.length_cons]
    have h1 := h x (List.mem_cons_self x xs)
    have h2 := ih (fun a ha => h a (List.mem_cons_of_mem _ ha))
    omega

/-- Claim C6: per-match failures never abort an extraction run - a match whose
signature has no registered extractor is recorded as a failed
`ExtractionResult` with an empty output directory while every other match is
still processed (the run records at least one entry per match), and the
Python façade returns one result map per `ExtractionResult` entry. -/
theorem extract_partial_failure (fuel : Nat) (reg : List SignatureRule)
    (inc exc : Option (List String)) (buf : List Nat) (src outRoot : String)
    (results : List AnalysisResult) (m : AnalysisResult) (hm : m ∈ results)
    (hnoext : lookupExtractor reg m.id = none) :
    (mkKey src m, noExtractorResult) ∈ runResults fuel reg inc exc buf src outRoot results ∧
    results.length ≤ (runResults fuel reg inc exc buf src outRoot results).length ∧
    (∀ entries, (pyConvert entries).length = entries.length) := by
  refine ⟨?_, ?_, fun entries => by simp [pyConvert]⟩
  · unfold runResults
    apply List.mem_flatMap.mpr
    refine ⟨m, hm, ?_⟩
    rw [hnoext]
    exact List.mem_singleton.mpr rfl
  · unfold runResults
    apply length_le_flatMap
    intro a _
    cases hl : lookupExtractor reg a.id with
    | none => simp [hl]
    | some ext => simp [hl]

theorem extract_partial_failure_witness :
    (mkKey "f" ⟨"a", "ruleA", "first rule", .Medium, 0, 0⟩, noExtractorResult) ∈
      runResults 1 [ruleA] none none [1] "f" "out"
        [⟨"a", "ruleA", "first rule", .Medium, 0, 0⟩] ∧
    List.length [(⟨"a", "ruleA", "first rule", .Medium, 0, 0⟩ : AnalysisResult)] ≤
      (runResults 1 [ruleA] none none [1] "f" "out"
        [⟨"a", "ruleA", "first rule", .Medium, 0, 0⟩]).length :=
  ⟨(extract_partial_failure 1 [ruleA] none none [1] "f" "out"
      [⟨"a", "ruleA", "first rule", .Medium, 0, 0⟩]
      ⟨"a", "ruleA", "first rule", .Medium, 0, 0⟩ (by decide) rfl).1,
   (extract_partial_failure 1 [ruleA] none none [1] "f" "out"
      [⟨"a", "ruleA", "first rule", .Medium, 0, 0⟩]
      ⟨"a", "ruleA", "first rule", .Medium, 0, 0⟩ (by decide) rfl).2.1⟩

theorem aggAux_ok (es : List (String × ExtractionResult)) : ∀ acc,
    (acc.map Prod.fst ++ es.map Prod.fst).Nodup → aggAux acc es = .ok (acc ++ es) := by
  induction es with
  | nil =>
    intro acc _
    simp [aggAux]
  | cons kv rest ih =>
    intro acc h
    obtain ⟨k, v⟩ := kv
    have hmem : k ∉ acc.map Prod.fst := by
      intro hk
      simp only [List.map_cons] at h
      exact (List.disjoint_of_nodup_append h) hk (List.mem_cons_self k _)
    have hk : (acc.map Prod.fst).contains k = false := by
      simp [hmem]
    unfold aggAux
    rw [hk]
    simp only [Bool.false_eq_true, if_false]
    have hrw : (acc ++ [(k, v)]).map Prod.fst ++ rest.map Prod.fst =
        acc.map Prod.fst ++ ((k, v) :: rest).map Prod.fst := by
      simp
    rw [ih (acc ++ [(k, v)]) (hrw ▸ h)]
    simp

theorem aggAux_error (es : List (String × ExtractionResult)) : ∀ acc,
    (acc.map Prod.fst).Nodup → ¬ (acc.map Prod.fst ++ es.map Prod.fst).Nodup →
    ∃ msg, aggAux acc es = .error msg := by
  induction es with
  | nil =>
    intro acc hacc hn
    rw [List.map_nil, List.append_nil] at hn
    exact absurd hacc hn
  | cons kv rest ih =>
    intro acc hacc hn
    obtain ⟨k, v⟩ := kv
    by_cases hk : (acc.map Prod.fst).contains k = true
    · exact ⟨"Aggregator key collision: " ++ k, by unfold aggAux; rw [hk]; simp⟩
    · have hk' : (acc.map Prod.fst).contains k = false := by
        revert hk
        cases (acc.map Prod.fst).contains k <;> simp
      have hmem : k ∉ acc.map Prod.fst := by
        simpa using hk'
      have hstep : ∃ msg, aggAux (acc ++ [(k, v)]) rest = .error msg := by
        apply ih
        · rw [List.map_append]
          apply List.Nodup.append hacc (by simp)
          intro x hx hx'
          rw [List.map_singleton, List.mem_singleton] at hx'
          subst hx'
          exact hmem hx
        · intro hcontra
          apply hn
          have hrw : (acc ++ [(k, v)]).map Prod.fst ++ rest.map Prod.fst =
              acc.map Prod.fst ++ ((k, v) :: rest).map Prod.fst := by
            simp
          exact hrw ▸ hcontra
      obtain ⟨msg, hmsg⟩ := hstep
      refine ⟨msg, ?_⟩
      unfold aggAux
      rw [hk']
      simpa using hmsg

/-- Claim C7: the result aggregator merges the `ExtractionResult`s of the
top-level run and every recursive sub-run into one mapping keyed by the
stable path/offset/signature key; when all keys are distinct every entry is
kept, and a later entry with an already-present key aborts the run with a
diagnostic instead of overwriting the earlier entry. -/
theorem extraction_results_aggregation (entries : List (String × ExtractionResult)) :
    ((entries.map Prod.fst).Nodup → aggregate entries = .ok entries) ∧
    (¬ (entries.map Prod.fst).Nodup → ∃ msg, aggregate entries = .error msg) ∧
    (∀ b fuel buf path results, binwalkExtract b fuel buf path results =
      aggregate (runResults fuel b.registry b.include_list b.exclude_list buf path
        b.output_directory results)) := by
  refine ⟨fun h => ?_, fun h => ?_, fun _ _ _ _ _ => rfl⟩
  · have := aggAux_ok entries [] (by simpa using h)
    simpa [aggregate] using this
  · exact aggAux_error entries [] (by simp) (by simpa using h)

theorem extraction_results_aggregation_witness :
    aggregate [("a", noExtractorResult), ("b", noExtractorResult)] =
      .ok [("a", noExtractorResult), ("b", noExtractorResult)] ∧
    (∃ msg, aggregate [("a", noExtractorResult), ("a", noExtractorResult)] =
      .error msg) :=
  ⟨(extraction_results_aggregation [("a", noExtractorResult), ("b", noExtractorResult)]).1
      (by decide),
   (extraction_results_aggregation [("a", noExtractorResult), ("a", noExtractorResult)]).2.1
      (by decide)⟩
